import Mathlib

/-!
Shallow embedding of `src/svm.py` (repository SIF_water).

The program has two pieces of original logic:

* `load_climate_data`: loads a `.mat` file into a dict, reads the field
  `"var"` (a 2-D numeric matrix), and returns the first two columns as the
  feature matrix and the last column as the label vector.
* `split_data`: computes `split_idx = int(n_samples * (1 - test_size))`
  and slices features and labels into train (`[:split_idx]`) and test
  (`[split_idx:]`) partitions.

We model numeric values as rationals, matrices as lists of row lists, and the
loaded `.mat` dict as an association list from field names to matrices.
Python `int()` truncates toward zero, and Python slice positions follow
Python semantics: a nonnegative position is clamped to the list length, a
negative position counts from the end of the list (clamped below at 0).
A lookup of a missing dict key raises `KeyError`, modelled by `Option`.
Both modelled functions are pure: they only read their arguments and build
new lists, mirroring that the Python code never writes into its inputs.
-/

namespace SIFWater

/-- Python `int()` applied to an exact numeric value: truncation toward zero. -/
def pyInt (q : ℚ) : ℤ := if 0 ≤ q then ⌊q⌋ else ⌈q⌉

/-- Resolution of a Python slice position `k` against a list of length `len`:
a negative position counts from the end (`len + k`, clamped below at `0`),
a nonnegative position is clamped above at `len`. -/
def pyIdx (len : ℕ) (k : ℤ) : ℕ :=
  if k < 0 then ((len : ℤ) + k).toNat else min k.toNat len

/-- Python slice `xs[:k]`. -/
def pySliceTo (xs : List α) (k : ℤ) : List α := xs.take (pyIdx xs.length k)

/-- Python slice `xs[k:]`. -/
def pySliceFrom (xs : List α) (k : ℤ) : List α := xs.drop (pyIdx xs.length k)

/-- Embedding of `load_climate_data` (src/svm.py lines 6-23).
`mat_data` is the dict produced by `scio.loadmat`; the function reads
the dict entry `var` (`none` models the `KeyError` when the field is absent),
takes `climate_data[:, :2]` as features and `climate_data[:, -1]` as labels.
Column index `-1` requires at least one column in every row (a 0-column
2-D array would raise `IndexError`, also modelled by `none`). -/
def load_climate_data (mat_data : List (String × List (List ℚ))) :
    Option (List (List ℚ) × List ℚ) :=
  match mat_data.lookup "var" with
  | none => none
  | some climate_data =>
    if climate_data.all (fun r => 1 ≤ r.length) then
      some (climate_data.map (fun r => r.take 2),
            climate_data.map (fun r => r.getLastD 0))
    else none

/-- The split index of `split_data`: `int(n_samples * (1 - test_size))`. -/
def splitIdx (n_samples : ℕ) (test_size : ℚ) : ℤ :=
  pyInt ((n_samples : ℚ) * (1 - test_size))

/-- Embedding of `split_data` (src/svm.py lines 26-34): returns
`(X_train, X_test, y_train, y_test)`. -/
def split_data (features : List (List ℚ)) (labels : List ℚ)
    (test_size : ℚ) :
    List (List ℚ) × List (List ℚ) × List ℚ × List ℚ :=
  let split_idx := splitIdx features.length test_size
  (pySliceTo features split_idx, pySliceFrom features split_idx,
   pySliceTo labels split_idx, pySliceFrom labels split_idx)

/-- Modelled from the claim C9 wording, for comparison with `split_data`:
a variant in which the slice positions clamp the split index into the range
`[0, n]` instead of interpreting a negative position from the end. -/
def split_data_clampedModel (features : List (List ℚ)) (labels : List ℚ)
    (test_size : ℚ) :
    List (List ℚ) × List (List ℚ) × List ℚ × List ℚ :=
  let k := (max 0 (min (splitIdx features.length test_size)
    (features.length : ℤ))).toNat
  (features.take k, features.drop k, labels.take k, labels.drop k)

/-! Basic facts about the slice primitives and the split index. -/

theorem pyInt_of_nonneg {q : ℚ} (h : 0 ≤ q) : pyInt q = ⌊q⌋ := if_pos h

theorem pyInt_of_neg {q : ℚ} (h : q < 0) : pyInt q = ⌈q⌉ :=
  if_neg (not_le.mpr h)

theorem splitIdx_eq_floor (n : ℕ) {ts : ℚ} (h1 : ts ≤ 1) :
    splitIdx n ts = ⌊(n : ℚ) * (1 - ts)⌋ :=
  pyInt_of_nonneg (mul_nonneg (Nat.cast_nonneg n) (by linarith))

theorem splitIdx_nonneg (n : ℕ) {ts : ℚ} (h1 : ts ≤ 1) :
    0 ≤ splitIdx n ts := by
  rw [splitIdx_eq_floor n h1]
  exact Int.floor_nonneg.mpr (mul_nonneg (Nat.cast_nonneg n) (by linarith))

theorem splitIdx_le (n : ℕ) {ts : ℚ} (h0 : 0 ≤ ts) (h1 : ts ≤ 1) :
    splitIdx n ts ≤ (n : ℤ) := by
  rw [splitIdx_eq_floor n h1]
  calc ⌊(n : ℚ) * (1 - ts)⌋ ≤ ⌊(n : ℚ)⌋ :=
        Int.floor_le_floor
          (mul_le_of_le_one_right (Nat.cast_nonneg n) (by linarith))
    _ = (n : ℤ) := Int.floor_natCast n

theorem pyIdx_of_nonneg_le {n : ℕ} {k : ℤ} (h0 : 0 ≤ k) (h1 : k ≤ (n : ℤ)) :
    pyIdx n k = k.toNat := by
  unfold pyIdx
  rw [if_neg (not_lt.mpr h0)]
  exact min_eq_left (by omega)

/-- Normal form of `split_data` for a test size in `[0, 1]` with aligned
inputs: both feature slices and both label slices cut at the same
nonnegative index `(splitIdx n ts).toNat`. -/
theorem split_data_eq_take_drop {features : List (List ℚ)} {labels : List ℚ}
    {ts : ℚ} (hlen : labels.length = features.length)
    (h0 : 0 ≤ ts) (h1 : ts ≤ 1) :
    split_data features labels ts =
      (features.take (splitIdx features.length ts).toNat,
       features.drop (splitIdx features.length ts).toNat,
       labels.take (splitIdx features.length ts).toNat,
       labels.drop (splitIdx features.length ts).toNat) := by
  have hk := pyIdx_of_nonneg_le (splitIdx_nonneg features.length h1)
    (splitIdx_le features.length h0 h1)
  unfold split_data pySliceTo pySliceFrom
  rw [hlen]
  simp only [hk]

theorem toNat_splitIdx_le (n : ℕ) {ts : ℚ} (h0 : 0 ≤ ts) (h1 : ts ≤ 1) :
    (splitIdx n ts).toNat ≤ n := by
  have := splitIdx_le n h0 h1
  omega

theorem getLastD_eq_getD (l : List α) (d : α) :
    l.getLastD d = l.getD (l.length - 1) d := by
  rw [List.getLastD_eq_getLast? d l, List.getLast?_eq_getElem? l,
    List.getD_eq_getElem?_getD]

theorem split_data_train_eq {features : List (List ℚ)} {labels : List ℚ}
    {ts : ℚ} (hlen : labels.length = features.length)
    (h0 : 0 ≤ ts) (h1 : ts ≤ 1) :
    (split_data features labels ts).1 =
      features.take (splitIdx features.length ts).toNat := by
  rw [split_data_eq_take_drop hlen h0 h1]

theorem split_data_test_eq {features : List (List ℚ)} {labels : List ℚ}
    {ts : ℚ} (hlen : labels.length = features.length)
    (h0 : 0 ≤ ts) (h1 : ts ≤ 1) :
    (split_data features labels ts).2.1 =
      features.drop (splitIdx features.length ts).toNat := by
  rw [split_data_eq_take_drop hlen h0 h1]

theorem split_data_ytrain_eq {features : List (List ℚ)} {labels : List ℚ}
    {ts : ℚ} (hlen : labels.length = features.length)
    (h0 : 0 ≤ ts) (h1 : ts ≤ 1) :
    (split_data features labels ts).2.2.1 =
      labels.take (splitIdx features.length ts).toNat := by
  rw [split_data_eq_take_drop hlen h0 h1]

theorem split_data_ytest_eq {features : List (List ℚ)} {labels : List ℚ}
    {ts : ℚ} (hlen : labels.length = features.length)
    (h0 : 0 ≤ ts) (h1 : ts ≤ 1) :
    (split_data features labels ts).2.2.2 =
      labels.drop (splitIdx features.length ts).toNat := by
  rw [split_data_eq_take_drop hlen h0 h1]

/-- C4: for every input features matrix and labels vector of equal row count
and every test_size in (0,1), concatenating the train partition followed by
the test partition returned by `split_data`, in order, reconstructs the
original features matrix exactly, and likewise for the labels vector. -/
theorem C4_concat_reconstructs (features : List (List ℚ)) (labels : List ℚ)
    (ts : ℚ) (hlen : labels.length = features.length)
    (h0 : 0 < ts) (h1 : ts < 1) :
    (split_data features labels ts).1 ++
      (split_data features labels ts).2.1 = features ∧
    (split_data features labels ts).2.2.1 ++
      (split_data features labels ts).2.2.2 = labels := by
  rw [split_data_train_eq hlen h0.le h1.le, split_data_test_eq hlen h0.le h1.le,
    split_data_ytrain_eq hlen h0.le h1.le, split_data_ytest_eq hlen h0.le h1.le]
  exact ⟨List.take_append_drop _ _, List.take_append_drop _ _⟩

theorem C4_concat_reconstructs_witness :
    (List.length ([1, 2, 3, 4, 5] : List ℚ) =
      List.length [[1], [2], [3], [4], [5]] ∧
      (0 : ℚ) < 1/2 ∧ (1/2 : ℚ) < 1) ∧
    ((split_data [[1], [2], [3], [4], [5]] [1, 2, 3, 4, 5] (1/2)).1 ++
      (split_data [[1], [2], [3], [4], [5]] [1, 2, 3, 4, 5] (1/2)).2.1 =
      [[1], [2], [3], [4], [5]] ∧
     (split_data [[1], [2], [3], [4], [5]] [1, 2, 3, 4, 5] (1/2)).2.2.1 ++
      (split_data [[1], [2], [3], [4], [5]] [1, 2, 3, 4, 5] (1/2)).2.2.2 =
      [1, 2, 3, 4, 5]) :=
  ⟨⟨rfl, by norm_num, by norm_num⟩,
   C4_concat_reconstructs [[1], [2], [3], [4], [5]] [1, 2, 3, 4, 5] (1/2)
     rfl (by norm_num) (by norm_num)⟩

/-- C5: for every loaded file whose contents do not contain the expected
named array field `var`, `load_climate_data` fails with a key error
(modelled by `none`) and returns no arrays. -/
theorem C5_missing_field (mat_data : List (String × List (List ℚ)))
    (hm : mat_data.lookup "var" = none) :
    load_climate_data mat_data = none := by
  unfold load_climate_data
  rw [hm]

theorem C5_missing_field_witness :
    ([("temp", [[1, 2, 3]])] : List (String × List (List ℚ))).lookup "var" =
      none ∧
    load_climate_data [("temp", [[1, 2, 3]])] = none :=
  ⟨rfl, C5_missing_field [("temp", [[1, 2, 3]])] rfl⟩

/-- C6: `split_data` is deterministic: any two calls with identical features,
identical labels, and identical test_size return identical arrays; there is
no randomness and no shuffling. -/
theorem C6_deterministic (f1 f2 : List (List ℚ)) (l1 l2 : List ℚ)
    (t1 t2 : ℚ) (hf : f1 = f2) (hl : l1 = l2) (ht : t1 = t2) :
    split_data f1 l1 t1 = split_data f2 l2 t2 := by
  rw [hf, hl, ht]

theorem C6_deterministic_witness :
    split_data [[1, 2]] [3] (1/5) = split_data [[1, 2]] [3] (1/5) :=
  C6_deterministic [[1, 2]] [[1, 2]] [3] [3] (1/5) (1/5) rfl rfl rfl

/-- C10: `split_data` has no side effects on its inputs: the embedding is a
pure function of `(features, labels, test_size)`, so the input lists are
unchanged by the call, and the four returned partitions are slices
(take/drop at a fixed cut point) of the input feature matrix and label
vector respectively. -/
theorem C10_pure_slices (features : List (List ℚ)) (labels : List ℚ)
    (ts : ℚ) :
    ∃ kf kl : ℕ, split_data features labels ts =
      (features.take kf, features.drop kf, labels.take kl, labels.drop kl) :=
  ⟨pyIdx features.length (splitIdx features.length ts),
   pyIdx labels.length (splitIdx features.length ts), rfl⟩

/-- C7: for every test_size in (0,1), `split_data` returns without error even
when the resulting split index is 0 (empty train partition, all rows in
test) or equal to the number of rows n (empty test partition, all rows in
train); neither degenerate partition is rejected by the splitter itself. -/
theorem C7_degenerate_ok (features : List (List ℚ)) (labels : List ℚ)
    (ts : ℚ) (hlen : labels.length = features.length)
    (h0 : 0 < ts) (h1 : ts < 1) :
    (splitIdx features.length ts = 0 →
      (split_data features labels ts).1 = [] ∧
      (split_data features labels ts).2.1 = features ∧
      (split_data features labels ts).2.2.1 = [] ∧
      (split_data features labels ts).2.2.2 = labels) ∧
    (splitIdx features.length ts = (features.length : ℤ) →
      (split_data features labels ts).2.1 = [] ∧
      (split_data features labels ts).1 = features ∧
      (split_data features labels ts).2.2.2 = [] ∧
      (split_data features labels ts).2.2.1 = labels) := by
  rw [split_data_train_eq hlen h0.le h1.le, split_data_test_eq hlen h0.le h1.le,
    split_data_ytrain_eq hlen h0.le h1.le, split_data_ytest_eq hlen h0.le h1.le]
  constructor
  · intro hk
    rw [hk]
    simp
  · intro hk
    rw [hk, Int.toNat_natCast]
    refine ⟨List.drop_length features, List.take_length features, ?_, ?_⟩
    · exact List.drop_eq_nil_of_le hlen.le
    · exact List.take_of_length_le hlen.le

theorem C7_degenerate_ok_witness :
    (List.length ([7] : List ℚ) = List.length [[1, 2]] ∧
      (0 : ℚ) < 1/2 ∧ (1/2 : ℚ) < 1 ∧
      splitIdx 1 (1/2) = 0 ∧ splitIdx 0 (1/2) = 0) ∧
    ((split_data [[1, 2]] [7] (1/2)).1 = [] ∧
     (split_data [[1, 2]] [7] (1/2)).2.1 = [[1, 2]]) ∧
    ((split_data ([] : List (List ℚ)) ([] : List ℚ) (1/2)).2.1 = [] ∧
     (split_data ([] : List (List ℚ)) ([] : List ℚ) (1/2)).1 = []) := by
  have ha : splitIdx 1 (1/2) = 0 := by
    rw [splitIdx_eq_floor 1 (by norm_num)]
    norm_num
  have hb : splitIdx 0 (1/2) = 0 := by
    rw [splitIdx_eq_floor 0 (by norm_num)]
    norm_num
  have h1 := (C7_degenerate_ok [[1, 2]] [7] (1/2) rfl (by norm_num)
    (by norm_num)).1 ha
  have h2 := (C7_degenerate_ok ([] : List (List ℚ)) ([] : List ℚ) (1/2) rfl
    (by norm_num) (by norm_num)).2 hb
  exact ⟨⟨rfl, by norm_num, by norm_num, ha, hb⟩, ⟨h1.1, h1.2.1⟩,
    ⟨h2.1, h2.2.1⟩⟩

/-- C1: for every feature matrix with n rows, every label vector with n
entries, and every test_size in (0,1), `split_data` returns `X_train` and
`y_train` with `floor(n * (1 - test_size))` rows and `X_test` and `y_test`
with `n - floor(n * (1 - test_size))` rows. The scenarios of the claim
(n = 10 with test_size 0.2 giving an 8/2 split, n = 5 with test_size 0.5
giving a 2/3 split) are instances, checked in the witness. -/
theorem C1_split_sizes (features : List (List ℚ)) (labels : List ℚ)
    (ts : ℚ) (hlen : labels.length = features.length)
    (h0 : 0 < ts) (h1 : ts < 1) :
    ((split_data features labels ts).1.length : ℤ) =
      ⌊(features.length : ℚ) * (1 - ts)⌋ ∧
    ((split_data features labels ts).2.2.1.length : ℤ) =
      ⌊(features.length : ℚ) * (1 - ts)⌋ ∧
    (split_data features labels ts).2.1.length =
      features.length - (split_data features labels ts).1.length ∧
    (split_data features labels ts).2.2.2.length =
      features.length - (split_data features labels ts).1.length := by
  rw [split_data_train_eq hlen h0.le h1.le, split_data_test_eq hlen h0.le h1.le,
    split_data_ytrain_eq hlen h0.le h1.le, split_data_ytest_eq hlen h0.le h1.le]
  have hkle : (splitIdx features.length ts).toNat ≤ features.length :=
    toNat_splitIdx_le features.length h0.le h1.le
  have hcast : (((splitIdx features.length ts).toNat : ℕ) : ℤ) =
      ⌊(features.length : ℚ) * (1 - ts)⌋ := by
    rw [Int.toNat_of_nonneg (splitIdx_nonneg features.length h1.le),
      splitIdx_eq_floor features.length h1.le]
  refine ⟨?_, ?_, ?_, ?_⟩
  · rw [List.length_take, min_eq_left hkle]
    exact hcast
  · rw [List.length_take, hlen, min_eq_left hkle]
    exact hcast
  · rw [List.length_take, List.length_drop, min_eq_left hkle]
  · rw [List.length_take, List.length_drop, hlen, min_eq_left hkle]

theorem C1_split_sizes_witness :
    ((0 : ℚ) < 1/5 ∧ (1/5 : ℚ) < 1 ∧ (0 : ℚ) < 1/2 ∧ (1/2 : ℚ) < 1) ∧
    (split_data (List.replicate 10 [0, 0]) (List.replicate 10 0)
      (1/5)).1.length = 8 ∧
    (split_data (List.replicate 10 [0, 0]) (List.replicate 10 0)
      (1/5)).2.1.length = 2 ∧
    (split_data (List.replicate 5 [0, 0]) (List.replicate 5 0)
      (1/2)).1.length = 2 ∧
    (split_data (List.replicate 5 [0, 0]) (List.replicate 5 0)
      (1/2)).2.1.length = 3 := by
  have hA := C1_split_sizes (List.replicate 10 [0, 0]) (List.replicate 10 0)
    (1/5) rfl (by norm_num) (by norm_num)
  have hB := C1_split_sizes (List.replicate 5 [0, 0]) (List.replicate 5 0)
    (1/2) rfl (by norm_num) (by norm_num)
  rw [List.length_replicate] at hA hB
  have e1 : (split_data (List.replicate 10 [0, 0]) (List.replicate 10 0)
      (1/5)).1.length = 8 := by
    have h8 : ((split_data (List.replicate 10 [0, 0]) (List.replicate 10 0)
        (1/5)).1.length : ℤ) = 8 := by
      rw [hA.1]
      norm_num
    exact_mod_cast h8
  have e2 : (split_data (List.replicate 10 [0, 0]) (List.replicate 10 0)
      (1/5)).2.1.length = 2 := by
    rw [hA.2.2.1, e1]
  have e3 : (split_data (List.replicate 5 [0, 0]) (List.replicate 5 0)
      (1/2)).1.length = 2 := by
    have h2 : ((split_data (List.replicate 5 [0, 0]) (List.replicate 5 0)
        (1/2)).1.length : ℤ) = 2 := by
      rw [hB.1]
      norm_num
    exact_mod_cast h2
  have e4 : (split_data (List.replicate 5 [0, 0]) (List.replicate 5 0)
      (1/2)).2.1.length = 3 := by
    rw [hB.2.2.1, e3]
  exact ⟨⟨by norm_num, by norm_num, by norm_num, by norm_num⟩, e1, e2, e3, e4⟩

/-- C3: splitting preserves feature/label alignment: within the train
partition, `X_train[i]` and `y_train[i]` are the feature row and label of
original sample `i`, and within the test partition, `X_test[j]` and
`y_test[j]` are the feature row and label of original sample
`split_index + j`. -/
theorem C3_alignment (features : List (List ℚ)) (labels : List ℚ)
    (ts : ℚ) (hlen : labels.length = features.length)
    (h0 : 0 < ts) (h1 : ts < 1) :
    (∀ i, i < (split_data features labels ts).1.length →
      (split_data features labels ts).1[i]? = features[i]?) ∧
    (∀ i, i < (split_data features labels ts).2.2.1.length →
      (split_data features labels ts).2.2.1[i]? = labels[i]?) ∧
    (∀ j, (split_data features labels ts).2.1[j]? =
      features[(splitIdx features.length ts).toNat + j]?) ∧
    (∀ j, (split_data features labels ts).2.2.2[j]? =
      labels[(splitIdx features.length ts).toNat + j]?) := by
  rw [split_data_train_eq hlen h0.le h1.le, split_data_test_eq hlen h0.le h1.le,
    split_data_ytrain_eq hlen h0.le h1.le, split_data_ytest_eq hlen h0.le h1.le]
  refine ⟨?_, ?_, fun j => List.getElem?_drop features _ j,
    fun j => List.getElem?_drop labels _ j⟩
  · intro i hi
    rw [List.length_take] at hi
    rw [List.getElem?_take, if_pos (lt_of_lt_of_le hi (min_le_left _ _))]
  · intro i hi
    rw [List.length_take] at hi
    rw [List.getElem?_take, if_pos (lt_of_lt_of_le hi (min_le_left _ _))]

theorem C3_alignment_witness :
    (List.length ([10, 20, 30, 40, 50] : List ℚ) =
      List.length [[1, 1], [2, 2], [3, 3], [4, 4], [5, 5]] ∧
      (0 : ℚ) < 1/2 ∧ (1/2 : ℚ) < 1) ∧
    (split_data [[1, 1], [2, 2], [3, 3], [4, 4], [5, 5]]
      [10, 20, 30, 40, 50] (1/2)).2.1[0]? = some [3, 3] ∧
    (split_data [[1, 1], [2, 2], [3, 3], [4, 4], [5, 5]]
      [10, 20, 30, 40, 50] (1/2)).2.2.2[0]? = some 30 := by
  have hidx : splitIdx 5 (1/2) = 2 := by
    rw [splitIdx_eq_floor 5 (by norm_num)]
    norm_num
  have h := C3_alignment [[1, 1], [2, 2], [3, 3], [4, 4], [5, 5]]
    [10, 20, 30, 40, 50] (1/2) rfl (by norm_num) (by norm_num)
  have e : (splitIdx
      (List.length ([[1, 1], [2, 2], [3, 3], [4, 4], [5, 5]] :
        List (List ℚ))) (1/2)).toNat + 0 = 2 := by
    show (splitIdx 5 (1/2)).toNat + 0 = 2
    rw [hidx]
    decide
  have ex := h.2.2.1 0
  have ey := h.2.2.2 0
  rw [e] at ex ey
  exact ⟨⟨rfl, by norm_num, by norm_num⟩, ex.trans rfl, ey.trans rfl⟩

theorem take_two_of_three_le {r : List ℚ} (h : 3 ≤ r.length) :
    r.take 2 = [r.getD 0 0, r.getD 1 0] := by
  rcases r with _ | ⟨a, _ | ⟨b, rest⟩⟩
  · simp at h
  · simp at h
  · rfl

/-- C2: for every two-dimensional numeric matrix with at least 3 columns
stored under the named array field `var`, `load_climate_data` returns
features equal to exactly the first two columns and labels equal to exactly
the last column of each row, with any middle columns ignored. -/
theorem C2_loader_columns (mat_data : List (String × List (List ℚ)))
    (m : List (List ℚ)) (hm : mat_data.lookup "var" = some m)
    (hc : ∀ r ∈ m, 3 ≤ r.length) :
    load_climate_data mat_data =
      some (m.map (fun r => [r.getD 0 0, r.getD 1 0]),
            m.map (fun r => r.getD (r.length - 1) 0)) := by
  have hall : (m.all fun r => decide (1 ≤ r.length)) = true := by
    simp only [List.all_eq_true, decide_eq_true_eq]
    intro r hr
    have := hc r hr
    omega
  unfold load_climate_data
  rw [hm]
  dsimp only
  rw [if_pos hall]
  refine congrArg some (Prod.ext ?_ ?_)
  · exact List.map_congr_left fun r hr => take_two_of_three_le (hc r hr)
  · exact List.map_congr_left fun r hr => getLastD_eq_getD r 0

theorem C2_loader_columns_witness :
    (([("var", [[1, 2, 3, 4], [5, 6, 7, 8]])] :
        List (String × List (List ℚ))).lookup "var" =
      some [[1, 2, 3, 4], [5, 6, 7, 8]]) ∧
    load_climate_data [("var", [[1, 2, 3, 4], [5, 6, 7, 8]])] =
      some ([[1, 2], [5, 6]], [4, 8]) := by
  have h := C2_loader_columns [("var", [[1, 2, 3, 4], [5, 6, 7, 8]])]
    [[1, 2, 3, 4], [5, 6, 7, 8]] rfl (by decide)
  exact ⟨rfl, h.trans rfl⟩

/-- C8: `load_climate_data` does not check the column count; for a stored
matrix with exactly 2 columns it returns without error, with features equal
to both columns (each row unchanged) and labels equal to the second column,
so the label column is simultaneously also a feature column. -/
theorem C8_two_columns (mat_data : List (String × List (List ℚ)))
    (m : List (List ℚ)) (hm : mat_data.lookup "var" = some m)
    (hc : ∀ r ∈ m, r.length = 2) :
    load_climate_data mat_data = some (m, m.map (fun r => r.getD 1 0)) := by
  have hall : (m.all fun r => decide (1 ≤ r.length)) = true := by
    simp only [List.all_eq_true, decide_eq_true_eq]
    intro r hr
    have := hc r hr
    omega
  unfold load_climate_data
  rw [hm]
  dsimp only
  rw [if_pos hall]
  refine congrArg some (Prod.ext ?_ ?_)
  · exact (List.map_congr_left fun r hr =>
      List.take_of_length_le (by rw [hc r hr])).trans (List.map_id m)
  · refine List.map_congr_left fun r hr => ?_
    rw [getLastD_eq_getD, hc r hr]

theorem C8_two_columns_witness :
    (([("var", [[1, 2], [3, 4]])] :
        List (String × List (List ℚ))).lookup "var" =
      some [[1, 2], [3, 4]]) ∧
    load_climate_data [("var", [[1, 2], [3, 4]])] =
      some ([[1, 2], [3, 4]], [2, 4]) := by
  have h := C8_two_columns [("var", [[1, 2], [3, 4]])] [[1, 2], [3, 4]]
    rfl (by decide)
  exact ⟨rfl, h.trans rfl⟩

theorem splitIdx_five_ts_three_halves : splitIdx 5 (3/2) = -2 := by
  unfold splitIdx
  rw [pyInt_of_neg (by norm_num)]
  rw [show ((5 : ℕ) : ℚ) * (1 - 3/2) = -(5/2) by norm_num, Int.ceil_neg]
  norm_num

/-- C9 (counterexample): the claim asserts that the split index, used only
in slice positions, clamps to the valid range [0, n]. For 5 rows and
test_size = 3/2 the index is -2; a Python slice interprets it from the end
of the list (train gets the first 3 rows), while clamping into [0, n] would
make the train partition empty, so the two disagree. -/
theorem C9_clamp_counterexample :
    split_data [[1], [2], [3], [4], [5]] [1, 2, 3, 4, 5] (3/2) ≠
      split_data_clampedModel [[1], [2], [3], [4], [5]] [1, 2, 3, 4, 5]
        (3/2) := by
  have hidx := splitIdx_five_ts_three_halves
  have hL : (split_data [[1], [2], [3], [4], [5]]
      ([1, 2, 3, 4, 5] : List ℚ) (3/2)).1 = [[1], [2], [3]] := by
    rw [show (split_data [[1], [2], [3], [4], [5]]
        ([1, 2, 3, 4, 5] : List ℚ) (3/2)).1 =
      List.take (pyIdx 5 (splitIdx 5 (3/2))) [[1], [2], [3], [4], [5]]
      from rfl, hidx]
    decide
  have hR : (split_data_clampedModel [[1], [2], [3], [4], [5]]
      ([1, 2, 3, 4, 5] : List ℚ) (3/2)).1 = [] := by
    rw [show (split_data_clampedModel [[1], [2], [3], [4], [5]]
        ([1, 2, 3, 4, 5] : List ℚ) (3/2)).1 =
      List.take ((max 0 (min (splitIdx 5 (3/2)) ((5 : ℕ) : ℤ))).toNat)
        [[1], [2], [3], [4], [5]] from rfl, hidx]
    decide
  intro h
  have h1 := congrArg Prod.fst h
  rw [hL, hR] at h1
  exact List.cons_ne_nil _ _ h1

/-- C9 (amended): `split_data` is total for every rational test_size, not
only those in (0,1): it always returns four arrays whose train and test
parts concatenate back to the inputs. For test_size at most 0 the split
index is at least n and the slices put every row in train and none in test.
When the split index is negative (test_size above 1), the slice positions
do not clamp to 0: Python interprets them from the end of the list, so the
train partition keeps `(n + split_idx).toNat` rows. -/
theorem C9_total_split (features : List (List ℚ)) (labels : List ℚ)
    (ts : ℚ) :
    (split_data features labels ts).1 ++
      (split_data features labels ts).2.1 = features ∧
    (split_data features labels ts).2.2.1 ++
      (split_data features labels ts).2.2.2 = labels ∧
    (ts ≤ 0 → (split_data features labels ts).1 = features ∧
      (split_data features labels ts).2.1 = []) ∧
    (splitIdx features.length ts < 0 →
      (split_data features labels ts).1.length =
        ((features.length : ℤ) + splitIdx features.length ts).toNat) := by
  refine ⟨List.take_append_drop _ _, List.take_append_drop _ _, ?_, ?_⟩
  · intro hts
    have h1le : ts ≤ 1 := by linarith
    have hge : (features.length : ℤ) ≤ splitIdx features.length ts := by
      rw [splitIdx_eq_floor features.length h1le]
      refine Int.le_floor.mpr ?_
      push_cast
      nlinarith [Nat.cast_nonneg (α := ℚ) features.length]
    have h0idx : 0 ≤ splitIdx features.length ts :=
      le_trans (Int.natCast_nonneg _) hge
    have hκ : pyIdx features.length (splitIdx features.length ts) =
        features.length := by
      unfold pyIdx
      rw [if_neg (not_lt.mpr h0idx)]
      exact min_eq_right (by omega)
    constructor
    · rw [show (split_data features labels ts).1 =
        features.take (pyIdx features.length (splitIdx features.length ts))
        from rfl, hκ, List.take_length]
    · rw [show (split_data features labels ts).2.1 =
        features.drop (pyIdx features.length (splitIdx features.length ts))
        from rfl, hκ, List.drop_length]
  · intro hneg
    have hκ : pyIdx features.length (splitIdx features.length ts) =
        ((features.length : ℤ) + splitIdx features.length ts).toNat := by
      unfold pyIdx
      rw [if_pos hneg]
    rw [show (split_data features labels ts).1 =
      features.take (pyIdx features.length (splitIdx features.length ts))
      from rfl, hκ, List.length_take]
    have hle : ((features.length : ℤ) +
        splitIdx features.length ts).toNat ≤ features.length := by omega
    rw [min_eq_left hle]

theorem C9_total_split_witness :
    ((-1 : ℚ) ≤ 0 ∧ splitIdx 5 (3/2) < 0) ∧
    (split_data [[1], [2]] [1, 2] (-1)).1 = [[1], [2]] ∧
    (split_data [[1], [2]] [1, 2] (-1)).2.1 = [] ∧
    (split_data [[1], [2], [3], [4], [5]] [1, 2, 3, 4, 5] (3/2)).1.length =
      ((5 : ℤ) + splitIdx 5 (3/2)).toNat := by
  have hidx := splitIdx_five_ts_three_halves
  have hA := (C9_total_split [[1], [2]] [1, 2] (-1)).2.2.1 (by norm_num)
  have hB := (C9_total_split [[1], [2], [3], [4], [5]] [1, 2, 3, 4, 5]
    (3/2)).2.2.2 (show splitIdx 5 (3/2) < 0 by rw [hidx]; decide)
  exact ⟨⟨by norm_num, by rw [hidx]; decide⟩, hA.1, hA.2, hB⟩

end SIFWater
